import Mathlib

/-!
Verification of the git-all parallel runner and its output classifiers.

The definitions below are shallow embeddings of the Rust sources:
  src/rust/src/runner.rs, src/rust/src/main.rs,
  src/rust/src/commands/{status,fetch,passthrough}.rs,
  src/fit-rust/src/{runner,main}.rs, src/fit-rust/src/commands/fetch.rs,
  src/nit-rust/src/commands/pull.rs.
Strings are modelled through their character lists; byte positions in the
Rust code always sit at character boundaries, so character indices are used
throughout.  Machine integers are Nat; `usize` parsing checks the 64-bit
bound explicitly.  A reachable Rust panic (the bracket slice in
parse_branch_line) is modelled as none.
-/

/-! ## Character-list string machinery (Rust str operations) -/

/-- Unicode White_Space property, as used by Rust's char::is_whitespace. -/
def rustIsWhitespace (c : Char) : Bool :=
  (0x09 ≤ c.val && c.val ≤ 0x0D) || c.val = 0x20 || c.val = 0x85 || c.val = 0xA0 ||
  c.val = 0x1680 || (0x2000 ≤ c.val && c.val ≤ 0x200A) || c.val = 0x2028 ||
  c.val = 0x2029 || c.val = 0x202F || c.val = 0x205F || c.val = 0x3000

/-- str::trim_start on a character list. -/
def trimLeftChars (l : List Char) : List Char := l.dropWhile rustIsWhitespace

/-- str::trim_end on a character list. -/
def trimRightChars (l : List Char) : List Char :=
  (l.reverse.dropWhile rustIsWhitespace).reverse

/-- str::trim on a character list. -/
def trimChars (l : List Char) : List Char := trimRightChars (trimLeftChars l)

/-- str::starts_with for a pattern, on character lists. -/
def startsWithChars : List Char → List Char → Bool
  | [], _ => true
  | _ :: _, [] => false
  | p :: ps, c :: cs => p = c && startsWithChars ps cs

/-- str::strip_prefix, on character lists. -/
def stripPre : List Char → List Char → Option (List Char)
  | [], l => some l
  | _ :: _, [] => none
  | p :: ps, c :: cs => if p = c then stripPre ps cs else none

/-- str::contains for a substring pattern, on character lists. -/
def containsChars (pat : List Char) : List Char → Bool
  | [] => startsWithChars pat []
  | c :: cs => startsWithChars pat (c :: cs) || containsChars pat cs

/-- str::find for a substring pattern: index of the first occurrence. -/
def findSubIdx (pat : List Char) : List Char → Option Nat
  | [] => if startsWithChars pat [] then some 0 else none
  | c :: cs =>
    if startsWithChars pat (c :: cs) then some 0
    else (findSubIdx pat cs).map (· + 1)

/-- str::find for a single character: index of the first occurrence. -/
def findCharIdx (c : Char) : List Char → Option Nat
  | [] => none
  | x :: xs => if x = c then some 0 else (findCharIdx c xs).map (· + 1)

/-- str::split on a single separator character (split never yields zero parts). -/
def splitOnCharList (sep : Char) : List Char → List (List Char)
  | [] => [[]]
  | c :: cs =>
    if c = sep then [] :: splitOnCharList sep cs
    else
      match splitOnCharList sep cs with
      | [] => [[c]]
      | h :: t => (c :: h) :: t

/-- Number of UTF-8 bytes of a character list (Rust str::len). -/
def utf8Len (l : List Char) : Nat := (l.map Char.utf8Size).sum

/-- Accepts what `usize::from_str` accepts on 64-bit: optional '+', one or
more ASCII digits, value within the usize range; anything else is an error. -/
def rustParseUsize (s : List Char) : Option Nat :=
  let digits := match s with
    | '+' :: rest => rest
    | other => other
  if digits.isEmpty then none
  else if digits.all Char.isDigit then
    let v := digits.foldl (fun acc c => acc * 10 + (c.toNat - '0'.toNat)) 0
    if v ≤ 2 ^ 64 - 1 then some v else none
  else none

/-- Helper splitting one chunk at each '\n' (internal to rustLines). -/
def splitNlAux : List Char → List Char → List (List Char)
  | [], acc => [acc.reverse]
  | c :: cs, acc =>
    if c = '\n' then acc.reverse :: splitNlAux cs [] else splitNlAux cs (c :: acc)

/-- Drop one trailing '\r' (Rust str::lines strips it from a line that was
terminated by '\n', so that "\r\n" counts as one line ending). -/
def stripTrailingCR (l : List Char) : List Char :=
  if l.getLast? = some '\r' then l.dropLast else l

/-- Strip the '\r' of a "\r\n" ending from every chunk that was terminated by
'\n' — i.e. every chunk but the final one, which had no terminator. -/
def stripCRAllButLast : List (List Char) → List (List Char)
  | [] => []
  | [p] => [p]
  | p :: ps => stripTrailingCR p :: stripCRAllButLast ps

/-- Rust str::lines on a character list: split at '\n'; a '\r' directly
before a '\n' belongs to the line ending and is removed, but a trailing '\r'
on the final, unterminated line is kept; no trailing empty line when the
text ends with '\n'. -/
def rustLinesChars (l : List Char) : List (List Char) :=
  match l with
  | [] => []
  | _ =>
    let parts := stripCRAllButLast (splitNlAux l [])
    if parts.getLast? = some [] then parts.dropLast else parts

/-! String-level wrappers (the formatters work on Rust String/str values). -/

/-- Rust str::lines, producing Lean strings. -/
def rustLines (s : String) : List String := (rustLinesChars s.data).map String.mk

/-- Rust str::trim. -/
def strTrim (s : String) : String := ⟨trimChars s.data⟩

/-- Rust s.contains(pat) for a substring pattern. -/
def strContains (s pat : String) : Bool := containsChars pat.data s.data

/-- Rust s.starts_with(pat). -/
def strStarts (s pat : String) : Bool := startsWithChars pat.data s.data

/-- Rust l.trim().is_empty(): the line is blank. -/
def isBlankStr (s : String) : Bool := (trimChars s.data).isEmpty

/-- Rust's " ".join / Vec::join with a separator. -/
def sepJoin (sep : String) : List String → String
  | [] => ""
  | [x] => x
  | x :: xs => x ++ sep ++ sepJoin sep xs

/-! ## Raw process results and structured results (runner.rs) -/

/-- std::process::Output: exit status (success flag) plus the two captured
channels, decoded as in String::from_utf8_lossy. -/
structure Output where
  success : Bool
  stdout : String
  stderr : String

/-- FormattedResult from src/rust/src/runner.rs. -/
structure FormattedResult where
  branch : String
  message : String
deriving DecidableEq, Repr

/-! ## Status classifier (src/rust/src/commands/status.rs) -/

/-- parse_branch_line from src/rust/src/commands/status.rs, on character
lists: parse the porcelain `## branch...remote [ahead N, behind M]` header,
returning (branch, ahead, behind).  The Rust slice
`&tracking_info[bracket_start + 1..bracket_end]` panics when the slice start
exceeds its end, i.e. when the first ']' precedes the first '['; that panic
is modelled as none. -/
def parseBranchLineChars (line : List Char) : Option (List Char × Nat × Nat) :=
  if !(startsWithChars "## ".data line) then some (([] : List Char), 0, 0)
  else
    let content := line.drop 3
    if startsWithChars "HEAD (no branch)".data content then
      some ("HEAD (detached)".data, 0, 0)
    else if startsWithChars "No commits yet on ".data content then
      some (content.drop 18, 0, 0)
    else if startsWithChars "Initial commit on ".data content then
      some (content.drop 18, 0, 0)
    else
      let bp : List Char × List Char :=
        match findSubIdx "...".data content with
        | some dotsPos => (content.take dotsPos, content.drop (dotsPos + 3))
        | none => (trimChars content, ([] : List Char))
      let branch := bp.1
      let trackingInfo := bp.2
      match findCharIdx '[' trackingInfo with
      | some bracketStart =>
        match findCharIdx ']' trackingInfo with
        | some bracketEnd =>
          if bracketStart + 1 ≤ bracketEnd then
            let info := (trackingInfo.take bracketEnd).drop (bracketStart + 1)
            let ab : Nat × Nat :=
              (splitOnCharList ',' info).foldl
                (fun (ab : Nat × Nat) part =>
                  let part := trimChars part
                  match stripPre "ahead ".data part with
                  | some n => ((rustParseUsize n).getD 0, ab.2)
                  | none =>
                    match stripPre "behind ".data part with
                    | some n => (ab.1, (rustParseUsize n).getD 0)
                    | none => ab)
                (0, 0)
            some (branch, ab.1, ab.2)
          else none
        | none => some (branch, 0, 0)
      | none => some (branch, 0, 0)

/-- parse_branch_line on strings; none models the slice panic. -/
def parse_branch_line (line : String) : Option (String × Nat × Nat) :=
  (parseBranchLineChars line.data).map (fun r => (⟨r.1⟩, r.2.1, r.2.2))

/-- The five per-kind counters accumulated by StatusFormatter::format. -/
structure StatusCounts where
  modified : Nat
  added : Nat
  deleted : Nat
  renamed : Nat
  untracked : Nat
deriving DecidableEq, Repr

/-- The body of the record-line branch of StatusFormatter::format: classify
one two-column porcelain record line and bump the matching counter. -/
def countRecordLine (line : String) (c : StatusCounts) : StatusCounts :=
  let index_status := line.data.headD ' '
  let worktree_status := (line.data.drop 1).headD ' '
  if index_status = '?' then { c with untracked := c.untracked + 1 }
  else
    let c1 :=
      match index_status with
      | 'M' => { c with modified := c.modified + 1 }
      | 'A' => { c with added := c.added + 1 }
      | 'D' => { c with deleted := c.deleted + 1 }
      | 'R' => { c with renamed := c.renamed + 1 }
      | _ => c
    if index_status = ' ' then
      match worktree_status with
      | 'M' => { c1 with modified := c1.modified + 1 }
      | 'D' => { c1 with deleted := c1.deleted + 1 }
      | _ => c1
    else c1

/-- Scan state of the stdout loop in StatusFormatter::format. -/
structure StatusScan where
  branch : String
  ahead : Nat
  behind : Nat
  counts : StatusCounts
deriving DecidableEq, Repr

/-- One iteration of the stdout loop in StatusFormatter::format; none
propagates a parse_branch_line panic. -/
def statusScanStep (st : StatusScan) (line : String) : Option StatusScan :=
  if strStarts line "## " then
    (parse_branch_line line).map
      (fun r => { st with branch := r.1, ahead := r.2.1, behind := r.2.2 })
  else if utf8Len line.data < 2 then some st
  else some { st with counts := countRecordLine line st.counts }

/-- The rendering tail of StatusFormatter::format: build the clause list and
join it, with the "clean" special cases. -/
def renderStatusMessage (c : StatusCounts) (ahead behind : Nat) : String :=
  let parts : List String := []
  let parts := if c.modified > 0 then parts ++ [toString c.modified ++ " modified"] else parts
  let parts := if c.added > 0 then parts ++ [toString c.added ++ " added"] else parts
  let parts := if c.deleted > 0 then parts ++ [toString c.deleted ++ " deleted"] else parts
  let parts := if c.renamed > 0 then parts ++ [toString c.renamed ++ " renamed"] else parts
  let parts := if c.untracked > 0 then parts ++ [toString c.untracked ++ " untracked"] else parts
  let has_file_changes := !parts.isEmpty
  let parts := if ahead > 0 then parts ++ [toString ahead ++ " ahead"] else parts
  let parts := if behind > 0 then parts ++ [toString behind ++ " behind"] else parts
  if parts.isEmpty then "clean"
  else if !has_file_changes then "clean, " ++ sepJoin ", " parts
  else sepJoin ", " parts

/-- StatusFormatter::format from src/rust/src/commands/status.rs; none
models a panic while scanning the header line. -/
def statusFormat (o : Output) : Option FormattedResult :=
  if o.success = false then
    some { branch := "", message := (rustLines o.stderr).headD "unknown error" }
  else
    match (rustLines o.stdout).foldlM statusScanStep
        { branch := "", ahead := 0, behind := 0,
          counts :=
            { modified := 0, added := 0, deleted := 0, renamed := 0, untracked := 0 } } with
    | some st =>
      some { branch := st.branch
             message := renderStatusMessage st.counts st.ahead st.behind }
    | none => none

/-! ## Fetch classifiers -/

/-- FetchFormatter::format from src/rust/src/commands/fetch.rs. -/
def fetchFormat (o : Output) : String :=
  if o.success = false then
    "ERROR: " ++ (((rustLines o.stderr).find? (fun l => !(isBlankStr l))).getD "unknown error")
  else
    let stdoutContent := (rustLines o.stdout).filter (fun l => !(isBlankStr l))
    let stderrContent := (rustLines o.stderr).filter
      (fun l => !(isBlankStr l) && !(strStarts l "From"))
    if stdoutContent.isEmpty && stderrContent.isEmpty then "no new commits"
    else
      let updates := (rustLines o.stdout).filter
        (fun l => strContains l "->" || strContains l "[new")
      if !updates.isEmpty then
        let branchCount := (updates.filter (fun l => !(strContains l "[new tag]"))).length
        let tagCount := (updates.filter (fun l => strContains l "[new tag]")).length
        let parts : List String :=
          (if branchCount > 0 then
            [toString branchCount ++ " branch" ++ (if branchCount = 1 then "" else "es")]
          else []) ++
          (if tagCount > 0 then
            [toString tagCount ++ " tag" ++ (if tagCount = 1 then "" else "s")]
          else [])
        if !parts.isEmpty then sepJoin ", " parts ++ " updated" else "fetched"
      else "fetched"

/-- FetchFormatter::format from src/fit-rust/src/commands/fetch.rs. -/
def fitFetchFormat (o : Output) : String :=
  if o.success = false then (rustLines o.stderr).headD "unknown error"
  else
    let hasOutput :=
      (rustLines o.stdout).any (fun l => !(isBlankStr l)) ||
      (rustLines o.stderr).any (fun l => !(isBlankStr l) && !(strStarts l "From"))
    if !hasOutput then "no new commits"
    else
      let bt := ((rustLines o.stdout).filter
          (fun l => strContains l "->" || strContains l "[new")).foldl
        (fun (p : Nat × Nat) l =>
          if strContains l "[new tag]" then (p.1, p.2 + 1) else (p.1 + 1, p.2))
        (0, 0)
      if bt.1 > 0 || bt.2 > 0 then
        let parts : List String :=
          (if bt.1 > 0 then
            [toString bt.1 ++ " branch" ++ (if bt.1 = 1 then "" else "es")]
          else []) ++
          (if bt.2 > 0 then
            [toString bt.2 ++ " tag" ++ (if bt.2 = 1 then "" else "s")]
          else [])
        sepJoin ", " parts ++ " updated"
      else "fetched"

/-! ## Pull classifier (src/nit-rust/src/commands/pull.rs) -/

/-- PullFormatter::format from src/nit-rust/src/commands/pull.rs. -/
def pullFormat (o : Output) : String :=
  if o.success = false then (rustLines o.stderr).headD "unknown error"
  else if strContains o.stdout "Already up to date" then "Already up to date"
  else
    match (rustLines o.stdout).find? (fun l => strContains l "files changed") with
    | some summaryLine => strTrim summaryLine
    | none =>
      match (rustLines o.stdout).find?
          (fun l => strContains l ".." || strContains l "Updating") with
      | some line => strTrim line
      | none =>
        strTrim ((((rustLines o.stdout) ++ (rustLines o.stderr)).find?
          (fun l => !(isBlankStr l))).getD "completed")

/-! ## Passthrough classifier (src/rust/src/commands/passthrough.rs) -/

/-- PassthroughFormatter::format from src/rust/src/commands/passthrough.rs. -/
def passthroughFormat (o : Output) : FormattedResult :=
  if o.success = false then
    { branch := ""
      message := "ERROR: " ++
        (((rustLines o.stderr).find? (fun l => !(isBlankStr l))).getD "unknown error") }
  else
    { branch := ""
      message := strTrim ((((rustLines o.stdout) ++ (rustLines o.stderr)).find?
        (fun l => !(isBlankStr l))).getD "ok") }

/-! ## Command descriptors and process launching (src/rust/src/runner.rs) -/

/-- UrlScheme from runner.rs. -/
inductive UrlScheme where
  | ssh
  | https
deriving DecidableEq, Repr

/-- GitCommand from src/rust/src/runner.rs (paths modelled as strings). -/
structure GitCommand where
  repo_path : String
  global_args : List String
  args : List String

/-- GitCommand::new. -/
def GitCommand.new (repo_path : String) (args : List String) : GitCommand :=
  { repo_path := repo_path, global_args := [], args := args }

/-- GitCommand::with_global_args. -/
def GitCommand.with_global_args (repo_path : String) (global_args args : List String) :
    GitCommand :=
  { repo_path := repo_path, global_args := global_args, args := args }

/-- The observable state built up by std::process::Command in
GitCommand::spawn: program name, argument vector, and the environment
override; stdin is closed and both channels piped. -/
structure Cmd where
  program : String
  argv : List String
  envGitTerminalPrompt : Option String
deriving DecidableEq, Repr

/-- Command::new. -/
def Cmd.new (program : String) : Cmd :=
  { program := program, argv := [], envGitTerminalPrompt := none }

/-- Command::arg. -/
def Cmd.arg (c : Cmd) (a : String) : Cmd := { c with argv := c.argv ++ [a] }

/-- Command::args. -/
def Cmd.addArgs (c : Cmd) (as : List String) : Cmd := as.foldl Cmd.arg c

/-- Command::env("GIT_TERMINAL_PROMPT", "0"). -/
def Cmd.envPromptOff (c : Cmd) : Cmd := { c with envGitTerminalPrompt := some "0" }

/-- GitCommand::spawn from src/rust/src/runner.rs: the exact builder call
sequence, yielding the process invocation that is started. -/
def GitCommand.spawn (g : GitCommand) (url_scheme : Option UrlScheme) : Cmd :=
  let cmd := Cmd.new "git"
  let cmd :=
    match url_scheme with
    | some UrlScheme.ssh =>
      (cmd.arg "-c").arg "url.git@github.com:.insteadOf=https://github.com/"
    | some UrlScheme.https =>
      (cmd.arg "-c").arg "url.https://github.com/.insteadOf=git@github.com:"
    | none => cmd
  let cmd := cmd.addArgs g.global_args
  ((((cmd.arg "-C").arg g.repo_path).addArgs g.args).envPromptOff)

/-- GitCommand::command_string_with_scheme from src/rust/src/runner.rs:
the dry-run display string. -/
def commandStringWithScheme (g : GitCommand) (url_scheme : Option UrlScheme) : String :=
  let scheme_args :=
    match url_scheme with
    | some UrlScheme.ssh => "-c \"url.git@github.com:.insteadOf=https://github.com/\" "
    | some UrlScheme.https => "-c \"url.https://github.com/.insteadOf=git@github.com:\" "
    | none => ""
  let global :=
    if g.global_args.isEmpty then "" else sepJoin " " g.global_args ++ " "
  "git " ++ scheme_args ++ global ++ "-C " ++ g.repo_path ++ " " ++ sepJoin " " g.args

/-- The configuration value of the URL-rewrite override passed to git. -/
def schemeInsteadOfValue : UrlScheme → String
  | UrlScheme.ssh => "url.git@github.com:.insteadOf=https://github.com/"
  | UrlScheme.https => "url.https://github.com/.insteadOf=git@github.com:"

/-- ExecutionContext from src/rust/src/runner.rs. -/
structure ExecutionContext where
  dry_run : Bool
  url_scheme : Option UrlScheme
  max_connections : Nat
  display_root : String

/-- resolve_branch's subprocess invocation (run_parallel workers launch it
before the main command in the live branch of src/rust/src/runner.rs). -/
def resolveBranchCmd (repo : String) : Cmd :=
  ((((Cmd.new "git").arg "-C").arg repo).addArgs
    ["rev-parse", "--abbrev-ref", "HEAD"]).envPromptOff

/-- The externally observable effects of run_parallel (src/rust/src/runner.rs)
that do not depend on scheduling: the lines printed by the dry-run branch and
the set of subprocess invocations started.  In dry-run mode the function
returns after printing one command string per repo, spawning nothing; in live
mode every worker spawns the branch-resolution probe and the built command. -/
def runParallelObs (ctx : ExecutionContext) (repos : List String)
    (build : String → GitCommand) : List String × List Cmd :=
  if ctx.dry_run then
    (repos.map (fun repo => commandStringWithScheme (build repo) ctx.url_scheme), [])
  else
    ([], repos.flatMap (fun repo =>
      [resolveBranchCmd repo, (build repo).spawn ctx.url_scheme]))

/-! ## Result collector / orderer (the receive loop of run_parallel) -/

/-- The collector's mutable state inside run_parallel: the slot array
(`results`), the emit cursor (`next_to_print`) and the lines emitted so far,
as (target index, payload) pairs in print order. -/
structure CollectorState (α : Type) where
  slots : Nat → Option α
  nextToPrint : Nat
  emitted : List (Nat × α)

/-- The inner `while` loop of the receive loop: starting at the cursor, take
and emit every contiguous filled slot (`results[next_to_print].take()`),
advancing the cursor. -/
def drainReady (n : Nat) (slots : Nat → Option α) (next : Nat)
    (emitted : List (Nat × α)) : (Nat → Option α) × Nat × List (Nat × α) :=
  if _h : next < n then
    match slots next with
    | some v =>
      drainReady n (Function.update slots next none) (next + 1) (emitted ++ [(next, v)])
    | none => (slots, next, emitted)
  else (slots, next, emitted)
termination_by n - next

/-- One iteration of the receive loop of run_parallel: store the arrival in
its slot, then drain the contiguous filled prefix at the cursor. -/
def collectStep (n : Nat) (s : CollectorState α) (m : Nat × α) : CollectorState α :=
  let slots := Function.update s.slots m.1 (some m.2)
  let r := drainReady n slots s.nextToPrint s.emitted
  { slots := r.1, nextToPrint := r.2.1, emitted := r.2.2 }

/-- The whole receive loop of run_parallel: slots all start empty, the cursor
starts at 0, and the arrivals (one message per worker, in channel order) are
processed in sequence. -/
def runParallelCollect (n : Nat) (arrivals : List (Nat × α)) : CollectorState α :=
  arrivals.foldl (collectStep n)
    { slots := fun _ => none, nextToPrint := 0, emitted := [] }

/-! ## Main dispatch on empty discovery (main.rs of both crates) -/

/-- Outcome of the post-discovery step of main: either the process exits with
the given code, or it goes on to run the engine. -/
inductive MainOutcome where
  | exited : Nat → MainOutcome
  | engineRun : MainOutcome
deriving DecidableEq, Repr

/-- src/rust/src/main.rs: when discovery returns no repositories, print a
notice and `std::process::exit(9)`; otherwise proceed to run the engine. -/
def gitAllMainDiscoveryStep (repos : List String) : MainOutcome :=
  if repos.isEmpty then MainOutcome.exited 9 else MainOutcome.engineRun

/-- src/fit-rust/src/main.rs: when discovery returns no repositories, print a
notice and `return Ok(())`, i.e. the process exits successfully with code 0;
otherwise proceed to run the engine. -/
def fitMainDiscoveryStep (repos : List String) : MainOutcome :=
  if repos.isEmpty then MainOutcome.exited 0 else MainOutcome.engineRun

/-! ## Machinery lemmas -/

theorem startsWithChars_append_self (p r : List Char) :
    startsWithChars p (p ++ r) = true := by
  induction p with
  | nil => rfl
  | cons c cs ih => simp [startsWithChars, ih]

theorem startsWithChars_weaken (p q l : List Char)
    (h : startsWithChars (p ++ q) l = true) : startsWithChars p l = true := by
  induction p generalizing l with
  | nil => rfl
  | cons c cs ih =>
    cases l with
    | nil => simp [startsWithChars] at h
    | cons x xs =>
      simp [startsWithChars] at h ⊢
      exact ⟨h.1, ih xs h.2⟩

theorem containsChars_weaken (p q l : List Char)
    (h : containsChars (p ++ q) l = true) : containsChars p l = true := by
  induction l with
  | nil =>
    simp only [containsChars] at h ⊢
    exact startsWithChars_weaken p q [] h
  | cons c cs ih =>
    simp only [containsChars, Bool.or_eq_true] at h ⊢
    rcases h with h | h
    · exact Or.inl (startsWithChars_weaken p q (c :: cs) h)
    · exact Or.inr (ih h)

theorem startsWithChars_head_mem (c : Char) (p l : List Char)
    (h : startsWithChars (c :: p) l = true) : c ∈ l := by
  cases l with
  | nil => simp [startsWithChars] at h
  | cons x xs =>
    simp [startsWithChars] at h
    simp [h.1]

theorem containsChars_head_mem (c : Char) (p l : List Char)
    (h : containsChars (c :: p) l = true) : c ∈ l := by
  induction l with
  | nil => simp [containsChars, startsWithChars] at h
  | cons x xs ih =>
    simp only [containsChars, Bool.or_eq_true] at h
    rcases h with h | h
    · exact startsWithChars_head_mem c p (x :: xs) h
    · exact List.mem_cons_of_mem x (ih h)

theorem trimRightChars_eq_nil_iff (l : List Char) :
    trimRightChars l = [] ↔ ∀ c ∈ l, rustIsWhitespace c = true := by
  unfold trimRightChars
  rw [List.reverse_eq_nil_iff, List.dropWhile_eq_nil_iff]
  constructor
  · intro h c hc
    exact h c (List.mem_reverse.mpr hc)
  · intro h c hc
    exact h c (List.mem_reverse.mp hc)

theorem mem_of_mem_dropWhileChars (p : Char → Bool) (l : List Char) (c : Char)
    (hc : c ∈ l) (hp : p c = false) : c ∈ l.dropWhile p := by
  induction l with
  | nil => simp at hc
  | cons x xs ih =>
    by_cases hx : p x = true
    · rw [List.dropWhile_cons_of_pos hx]
      rcases List.mem_cons.mp hc with rfl | hmem
      · rw [hx] at hp; cases hp
      · exact ih hmem
    · rw [List.dropWhile_cons_of_neg hx]
      exact hc

theorem trimChars_ne_nil_of_mem (l : List Char) (c : Char) (hc : c ∈ l)
    (hp : rustIsWhitespace c = false) : trimChars l ≠ [] := by
  intro h
  unfold trimChars at h
  rw [trimRightChars_eq_nil_iff] at h
  have hmem : c ∈ trimLeftChars l := mem_of_mem_dropWhileChars _ l c hc hp
  have := h c hmem
  rw [hp] at this
  cases this

theorem stripPre_append_self (p r : List Char) : stripPre p (p ++ r) = some r := by
  induction p with
  | nil => rfl
  | cons c cs ih => simp [stripPre, ih]

theorem findCharIdx_cons_self (c : Char) (l : List Char) :
    findCharIdx c (c :: l) = some 0 := by
  simp [findCharIdx]

theorem findCharIdx_append_of_not_mem (c : Char) (l r : List Char) (h : c ∉ l) :
    findCharIdx c (l ++ r) = (findCharIdx c r).map (· + l.length) := by
  induction l with
  | nil =>
    simp only [List.nil_append, List.length_nil]
    cases findCharIdx c r with
    | none => rfl
    | some k => rfl
  | cons x xs ih =>
    have hx : x ≠ c := fun hxc => h (by simp [hxc])
    have hxs : c ∉ xs := fun hm => h (List.mem_cons_of_mem x hm)
    show (if x = c then some 0 else (findCharIdx c (xs ++ r)).map (· + 1)) = _
    rw [if_neg hx, ih hxs]
    cases findCharIdx c r with
    | none => rfl
    | some k =>
      show some (k + xs.length + 1) = some (k + (x :: xs).length)
      rw [List.length_cons, Nat.add_assoc]

theorem splitOnCharList_of_not_mem (sep : Char) (l : List Char) (h : sep ∉ l) :
    splitOnCharList sep l = [l] := by
  induction l with
  | nil => rfl
  | cons c cs ih =>
    have hc : c ≠ sep := fun hcs => h (by simp [hcs])
    have hcs : sep ∉ cs := fun hm => h (List.mem_cons_of_mem c hm)
    simp [splitOnCharList, if_neg hc, ih hcs]

theorem sepJoin_cons_of_ne_nil (s x : String) (xs : List String) (h : xs ≠ []) :
    sepJoin s (x :: xs) = x ++ s ++ sepJoin s xs := by
  cases xs with
  | nil => cases h rfl
  | cons y ys => rfl

theorem sepJoin_append_of_ne_nil (s : String) (xs ys : List String) (h : ys ≠ []) :
    sepJoin s (xs ++ ys) =
      (if xs.isEmpty then "" else sepJoin s xs ++ s) ++ sepJoin s ys := by
  induction xs with
  | nil => simp
  | cons x xt ih =>
    have hxt : xt ++ ys ≠ [] := by simp [h]
    rw [List.cons_append, sepJoin_cons_of_ne_nil s x (xt ++ ys) hxt, ih]
    cases xt with
    | nil => simp [sepJoin, String.append_assoc]
    | cons z zs =>
      have hx3 : sepJoin s (x :: z :: zs) = x ++ s ++ sepJoin s (z :: zs) := rfl
      simp only [List.isEmpty_cons, if_neg, Bool.false_eq_true, ite_false, hx3,
        String.append_assoc]

/-! ## Command builder lemmas -/

theorem addArgs_argv (c : Cmd) (as : List String) :
    (c.addArgs as).argv = c.argv ++ as := by
  induction as generalizing c with
  | nil => simp [Cmd.addArgs]
  | cons a rest ih =>
    show ((c.arg a).addArgs rest).argv = _
    rw [ih]
    simp [Cmd.arg, List.append_assoc]

theorem spawn_argv (g : GitCommand) (scheme : Option UrlScheme) :
    (g.spawn scheme).argv =
      (match scheme with
       | some UrlScheme.ssh => ["-c", "url.git@github.com:.insteadOf=https://github.com/"]
       | some UrlScheme.https => ["-c", "url.https://github.com/.insteadOf=git@github.com:"]
       | none => []) ++ g.global_args ++ ["-C", g.repo_path] ++ g.args := by
  cases scheme with
  | none =>
    simp [GitCommand.spawn, Cmd.new, Cmd.envPromptOff, addArgs_argv, Cmd.arg,
      List.append_assoc]
  | some u =>
    cases u <;>
      simp [GitCommand.spawn, Cmd.new, Cmd.envPromptOff, addArgs_argv, Cmd.arg,
        List.append_assoc]

/-- C8: for every Command Descriptor the spawned argument list is exactly the
URL-rewrite override pair (when a scheme is configured), then the global
arguments, then "-C" with the target path, then the subcommand arguments, in
that order. -/
theorem c8_spawn_argument_order (g : GitCommand) (scheme : Option UrlScheme) :
    (g.spawn scheme).argv =
      (match scheme with
       | some UrlScheme.ssh => ["-c", "url.git@github.com:.insteadOf=https://github.com/"]
       | some UrlScheme.https => ["-c", "url.https://github.com/.insteadOf=git@github.com:"]
       | none => []) ++ g.global_args ++ ["-C", g.repo_path] ++ g.args :=
  spawn_argv g scheme

/-- C9 counterexample: with zero discovered repositories the fit variant's
main returns Ok(()), i.e. the process exits with the success code 0 — not a
non-success outcome — while the git-all variant exits with code 9. -/
theorem c9_counterexample :
    fitMainDiscoveryStep [] = MainOutcome.exited 0 ∧
    gitAllMainDiscoveryStep [] = MainOutcome.exited 9 := by
  exact ⟨rfl, rfl⟩

/-- C9 (amended): the git-all implementation surfaces empty discovery as the
distinct non-success exit code 9 (and only then); the fit variant instead
prints a notice and exits successfully with code 0; with at least one target
both proceed to run the engine. -/
theorem c9_empty_discovery_outcomes (repos : List String) :
    (gitAllMainDiscoveryStep repos = MainOutcome.exited 9 ↔ repos = []) ∧
    (fitMainDiscoveryStep repos = MainOutcome.exited 0 ↔ repos = []) ∧
    (repos ≠ [] → gitAllMainDiscoveryStep repos = MainOutcome.engineRun ∧
      fitMainDiscoveryStep repos = MainOutcome.engineRun) := by
  cases repos <;> simp [gitAllMainDiscoveryStep, fitMainDiscoveryStep]

/-- C9 witness: with one discovered repository both variants run the engine. -/
theorem c9_empty_discovery_outcomes_witness :
    gitAllMainDiscoveryStep ["/w/repo"] = MainOutcome.engineRun ∧
    fitMainDiscoveryStep ["/w/repo"] = MainOutcome.engineRun :=
  (c9_empty_discovery_outcomes ["/w/repo"]).2.2 (by decide)

/-- C7 counterexample: in dry-run mode the printed line wraps the URL-rewrite
override value in shell quotes, while the executed command's arguments carry
no quotes, so the printed line is not byte-for-byte the executed command. -/
theorem c7_counterexample :
    commandStringWithScheme (GitCommand.new "/r" ["fetch"]) (some UrlScheme.ssh) =
      "git -c \"url.git@github.com:.insteadOf=https://github.com/\" -C /r fetch" ∧
    sepJoin " " ("git" ::
        (GitCommand.spawn (GitCommand.new "/r" ["fetch"]) (some UrlScheme.ssh)).argv) =
      "git -c url.git@github.com:.insteadOf=https://github.com/ -C /r fetch" ∧
    commandStringWithScheme (GitCommand.new "/r" ["fetch"]) (some UrlScheme.ssh) ≠
      sepJoin " " ("git" ::
        (GitCommand.spawn (GitCommand.new "/r" ["fetch"]) (some UrlScheme.ssh)).argv) := by
  refine ⟨by decide, by decide, by decide⟩

/-- C7 (amended): in dry-run mode the engine performs zero subprocess
invocations and prints one fully assembled command line per target; that line
is byte-for-byte the executed command (program and arguments joined by single
spaces) when no URL rewrite is configured, and with a URL rewrite configured
it differs only in that the insteadOf override value is wrapped in double
quotes. -/
theorem c7_dry_run_commands (ctx : ExecutionContext) (repos : List String)
    (build : String → GitCommand) (hdry : ctx.dry_run = true) :
    (runParallelObs ctx repos build).2 = [] ∧
    (runParallelObs ctx repos build).1 =
      repos.map (fun repo => commandStringWithScheme (build repo) ctx.url_scheme) ∧
    (∀ g : GitCommand, g.args ≠ [] →
      commandStringWithScheme g none = sepJoin " " ("git" :: (g.spawn none).argv)) ∧
    (∀ (g : GitCommand) (u : UrlScheme), g.args ≠ [] →
      commandStringWithScheme g (some u) =
        sepJoin " " ("git" :: "-c" :: ("\"" ++ schemeInsteadOfValue u ++ "\"") ::
          (g.global_args ++ ["-C", g.repo_path] ++ g.args))) := by
  refine ⟨by simp [runParallelObs, hdry], by simp [runParallelObs, hdry], ?_, ?_⟩
  · intro g hargs
    rw [spawn_argv]
    have hlist : g.global_args ++ ["-C", g.repo_path] ++ g.args =
        g.global_args ++ ("-C" :: g.repo_path :: g.args) := by
      simp [List.append_assoc]
    have htail : ("-C" :: g.repo_path :: g.args) ≠ [] := by simp
    have h1 : sepJoin " " ("git" :: (g.global_args ++ ("-C" :: g.repo_path :: g.args))) =
        "git" ++ " " ++ sepJoin " " (g.global_args ++ ("-C" :: g.repo_path :: g.args)) :=
      sepJoin_cons_of_ne_nil _ _ _ (by simp)
    have h2 := sepJoin_append_of_ne_nil " " g.global_args ("-C" :: g.repo_path :: g.args) htail
    have h3 : sepJoin " " ("-C" :: g.repo_path :: g.args) =
        "-C" ++ " " ++ (g.repo_path ++ " " ++ sepJoin " " g.args) := by
      rw [sepJoin_cons_of_ne_nil _ _ _ (by simp),
        sepJoin_cons_of_ne_nil _ _ _ hargs, String.append_assoc]
    have e1 : ("git " : String) = "git" ++ " " := rfl
    have e2 : ("-C " : String) = "-C" ++ " " := rfl
    simp only [List.nil_append, hlist, h1, h2, h3, commandStringWithScheme, e1, e2,
      String.append_assoc]
    simp
  · intro g u hargs
    have hlist : g.global_args ++ ["-C", g.repo_path] ++ g.args =
        g.global_args ++ ("-C" :: g.repo_path :: g.args) := by
      simp [List.append_assoc]
    have htail : ("-C" :: g.repo_path :: g.args) ≠ [] := by simp
    have h2 := sepJoin_append_of_ne_nil " " g.global_args ("-C" :: g.repo_path :: g.args) htail
    have h3 : sepJoin " " ("-C" :: g.repo_path :: g.args) =
        "-C" ++ " " ++ (g.repo_path ++ " " ++ sepJoin " " g.args) := by
      rw [sepJoin_cons_of_ne_nil _ _ _ (by simp),
        sepJoin_cons_of_ne_nil _ _ _ hargs, String.append_assoc]
    have h4 : ∀ q : String,
        sepJoin " " ("git" :: "-c" :: q ::
          (g.global_args ++ ("-C" :: g.repo_path :: g.args))) =
        "git" ++ " " ++ ("-c" ++ " " ++ (q ++ " " ++
          sepJoin " " (g.global_args ++ ("-C" :: g.repo_path :: g.args)))) := by
      intro q
      rw [sepJoin_cons_of_ne_nil _ _ _ (by simp), sepJoin_cons_of_ne_nil _ _ _ (by simp),
        sepJoin_cons_of_ne_nil _ _ _ (by simp)]
    have e1 : ("git " : String) = "git" ++ " " := by decide
    have e2 : ("-C " : String) = "-C" ++ " " := by decide
    cases u with
    | ssh =>
      have e3 : ("-c \"url.git@github.com:.insteadOf=https://github.com/\" " : String) =
          "-c" ++ " " ++ ("\"" ++ "url.git@github.com:.insteadOf=https://github.com/" ++ "\"") ++ " " := by
        decide
      simp only [commandStringWithScheme, schemeInsteadOfValue, hlist, h4, h2, h3, e1, e2, e3,
        String.append_assoc]
    | https =>
      have e3 : ("-c \"url.https://github.com/.insteadOf=git@github.com:\" " : String) =
          "-c" ++ " " ++ ("\"" ++ "url.https://github.com/.insteadOf=git@github.com:" ++ "\"") ++ " " := by
        decide
      simp only [commandStringWithScheme, schemeInsteadOfValue, hlist, h4, h2, h3, e1, e2, e3,
        String.append_assoc]

/-- C7 witness: a concrete dry run spawns nothing, and without a URL rewrite
the printed line equals the executed command. -/
theorem c7_dry_run_commands_witness :
    (runParallelObs ⟨true, some UrlScheme.ssh, 8, "/w"⟩ ["/w/a"]
      (fun repo => GitCommand.new repo ["fetch"])).2 = [] ∧
    commandStringWithScheme (GitCommand.new "/w/a" ["status"]) none =
      sepJoin " " ("git" :: ((GitCommand.new "/w/a" ["status"]).spawn none).argv) := by
  have h := c7_dry_run_commands ⟨true, some UrlScheme.ssh, 8, "/w"⟩ ["/w/a"]
    (fun repo => GitCommand.new repo ["fetch"]) rfl
  exact ⟨h.1, h.2.2.1 (GitCommand.new "/w/a" ["status"]) (by decide)⟩

/-- C2 counterexample: on the spec's own failing-invocation sample the fetch
classifier prepends "ERROR: " to the first non-blank error line, so the
message does not equal that line with no added prefix. -/
theorem c2_counterexample :
    fetchFormat ⟨false, "", "fatal: not a git repository\nsome other line\n"⟩ =
      "ERROR: fatal: not a git repository" ∧
    "ERROR: fatal: not a git repository" ≠ "fatal: not a git repository" := by
  exact ⟨by decide, by decide⟩

/-- C2 (amended): on non-zero exit status the status and pull classifiers
return the first line of the error channel verbatim, possibly blank (or
"unknown error" when the channel has no lines at all), as does the fit fetch
variant; the rust fetch and passthrough classifiers return the first
non-blank line (or "unknown error") prefixed with "ERROR: "; wherever a
structured branch field exists it is left empty. -/
theorem c2_failure_messages (out err : String) :
    statusFormat ⟨false, out, err⟩ =
      some { branch := "", message := (rustLines err).headD "unknown error" } ∧
    pullFormat ⟨false, out, err⟩ = (rustLines err).headD "unknown error" ∧
    fitFetchFormat ⟨false, out, err⟩ = (rustLines err).headD "unknown error" ∧
    fetchFormat ⟨false, out, err⟩ =
      "ERROR: " ++ (((rustLines err).find? (fun l => !(isBlankStr l))).getD "unknown error") ∧
    passthroughFormat ⟨false, out, err⟩ =
      { branch := ""
        message := "ERROR: " ++
          (((rustLines err).find? (fun l => !(isBlankStr l))).getD "unknown error") } := by
  exact ⟨rfl, rfl, rfl, rfl, rfl⟩

/-- C6 counterexample: on normal output containing "Already up to date." the
pull classifier renders the phrase without the trailing period, which is not
the exact contained phrase. -/
theorem c6_counterexample :
    pullFormat ⟨true, "Already up to date.\n", ""⟩ = "Already up to date" ∧
    "Already up to date" ≠ "Already up to date." := by
  exact ⟨by decide, by decide⟩

/-- C6 (amended): on success the pull message follows the priority cascade —
"Already up to date" (without a trailing period) when the normal output
contains that phrase, else the first line containing "files changed"
(trimmed), else the first line containing ".." or "Updating" (trimmed), else
the first non-blank line from either channel (trimmed), else "completed"; in
particular any normal output containing "Already up to date." yields exactly
"Already up to date". -/
theorem c6_pull_cascade (out err : String) :
    (strContains out "Already up to date." = true →
      pullFormat ⟨true, out, err⟩ = "Already up to date") ∧
    pullFormat ⟨true, out, err⟩ =
      (if strContains out "Already up to date" then "Already up to date"
       else
         match (rustLines out).find? (fun l => strContains l "files changed") with
         | some l => strTrim l
         | none =>
           match (rustLines out).find?
               (fun l => strContains l ".." || strContains l "Updating") with
           | some l => strTrim l
           | none =>
             strTrim ((((rustLines out) ++ (rustLines err)).find?
               (fun l => !(isBlankStr l))).getD "completed")) := by
  constructor
  · intro h
    have hd : ("Already up to date." : String).data =
        ("Already up to date" : String).data ++ ['.'] := by decide
    have h2 : strContains out "Already up to date" = true := by
      apply containsChars_weaken ("Already up to date" : String).data ['.'] out.data
      rw [← hd]
      exact h
    simp [pullFormat, strContains] at h2 ⊢
    simp [h2]
  · rfl

/-- C6 witness: normal output with "Already up to date." in its second line
renders exactly "Already up to date". -/
theorem c6_pull_cascade_witness :
    strContains "Done.\nAlready up to date.\n" "Already up to date." = true ∧
    pullFormat ⟨true, "Done.\nAlready up to date.\n", ""⟩ = "Already up to date" :=
  ⟨by decide, (c6_pull_cascade "Done.\nAlready up to date.\n" "").1 (by decide)⟩

set_option maxHeartbeats 1000000 in
/-- C4: on success the status message joins the non-zero counters as
"<n> <kind>" clauses in the order modified, added, deleted, renamed,
untracked, then appends ahead/behind clauses; it is "clean" when everything
is zero, "clean, " precedes the ahead/behind clauses when there are no
file-change clauses, and otherwise all clauses are joined with ", ". -/
theorem c4_status_render (c : StatusCounts) (ahead behind : Nat) :
    renderStatusMessage c ahead behind =
      (let fileClauses : List String :=
        (if c.modified = 0 then [] else [toString c.modified ++ " modified"]) ++
        (if c.added = 0 then [] else [toString c.added ++ " added"]) ++
        (if c.deleted = 0 then [] else [toString c.deleted ++ " deleted"]) ++
        (if c.renamed = 0 then [] else [toString c.renamed ++ " renamed"]) ++
        (if c.untracked = 0 then [] else [toString c.untracked ++ " untracked"])
      let abClauses : List String :=
        (if ahead = 0 then [] else [toString ahead ++ " ahead"]) ++
        (if behind = 0 then [] else [toString behind ++ " behind"])
      if fileClauses = [] ∧ abClauses = [] then "clean"
      else if fileClauses = [] then "clean, " ++ sepJoin ", " abClauses
      else sepJoin ", " (fileClauses ++ abClauses)) := by
  obtain ⟨m, a, d, r, u⟩ := c
  cases m <;> cases a <;> cases d <;> cases r <;> cases u <;> cases ahead <;> cases behind <;>
    simp [renderStatusMessage, sepJoin]

/-- C3: on a successful status run each record line bumps exactly the one
counter selected by its two status columns — '?' first column counts one
untracked; M/A/D/R first column counts one modified/added/deleted/renamed
(so combined markers like "MM" or "AM" count once via the first column);
a blank first column with worktree M or D counts one modified/deleted; and
no line ever adds more than one increment in total. -/
theorem c3_status_line_single_increment (line : String) (c : StatusCounts) :
    (line.data.headD ' ' = '?' →
      countRecordLine line c = { c with untracked := c.untracked + 1 }) ∧
    (line.data.headD ' ' = 'M' →
      countRecordLine line c = { c with modified := c.modified + 1 }) ∧
    (line.data.headD ' ' = 'A' →
      countRecordLine line c = { c with added := c.added + 1 }) ∧
    (line.data.headD ' ' = 'D' →
      countRecordLine line c = { c with deleted := c.deleted + 1 }) ∧
    (line.data.headD ' ' = 'R' →
      countRecordLine line c = { c with renamed := c.renamed + 1 }) ∧
    (line.data.headD ' ' = ' ' → (line.data.drop 1).headD ' ' = 'M' →
      countRecordLine line c = { c with modified := c.modified + 1 }) ∧
    (line.data.headD ' ' = ' ' → (line.data.drop 1).headD ' ' = 'D' →
      countRecordLine line c = { c with deleted := c.deleted + 1 }) ∧
    ((countRecordLine line c).modified + (countRecordLine line c).added +
      (countRecordLine line c).deleted + (countRecordLine line c).renamed +
      (countRecordLine line c).untracked ≤
      c.modified + c.added + c.deleted + c.renamed + c.untracked + 1) := by
  refine ⟨?_, ?_, ?_, ?_, ?_, ?_, ?_, ?_⟩
  · intro h
    unfold countRecordLine
    rw [h]
    simp
  · intro h
    unfold countRecordLine
    rw [h]
    simp
  · intro h
    unfold countRecordLine
    rw [h]
    simp
  · intro h
    unfold countRecordLine
    rw [h]
    simp
  · intro h
    unfold countRecordLine
    rw [h]
    simp
  · intro h hw
    unfold countRecordLine
    rw [h, hw]
    simp
  · intro h hw
    unfold countRecordLine
    rw [h, hw]
    simp
  · unfold countRecordLine
    generalize line.data.headD ' ' = ix
    generalize (line.data.drop 1).headD ' ' = wt
    by_cases h1 : ix = '?'
    · simp [h1]
      omega
    · simp only [if_neg h1]
      by_cases h6 : ix = ' '
      · simp [h6]
        split <;> simp <;> omega
      · simp only [if_neg h6]
        split <;> simp <;> omega

/-- C3 witness: the combined marker "MM" counts exactly once, as modified. -/
theorem c3_status_line_single_increment_witness :
    countRecordLine "MM file.txt" ⟨0, 0, 0, 0, 0⟩ = ⟨1, 0, 0, 0, 0⟩ :=
  (c3_status_line_single_increment "MM file.txt" ⟨0, 0, 0, 0, 0⟩).2.1 (by decide)

/-! ## Fetch classifier lemmas -/

theorem marker_not_blank (l : String)
    (h : (strContains l "->" || strContains l "[new") = true) : isBlankStr l = false := by
  have hne : trimChars l.data ≠ [] := by
    rcases (Bool.or_eq_true _ _).mp h with h | h
    · have e : ("->" : String).data = '-' :: ['>'] := rfl
      rw [strContains, e] at h
      exact trimChars_ne_nil_of_mem l.data '-'
        (containsChars_head_mem '-' ['>'] l.data h) (by decide)
    · have e : ("[new" : String).data = '[' :: ['n', 'e', 'w'] := rfl
      rw [strContains, e] at h
      exact trimChars_ne_nil_of_mem l.data '['
        (containsChars_head_mem '[' ['n', 'e', 'w'] l.data h) (by decide)
  simp [isBlankStr, hne]

theorem filter_not_isEmpty_eq_all {α : Type} (p : α → Bool) (l : List α) :
    (l.filter (fun x => !(p x))).isEmpty = l.all p := by
  induction l with
  | nil => rfl
  | cons x xs ih => by_cases hx : p x <;> simp [hx, ih]

theorem filter_not_two_isEmpty_eq_all {α : Type} (p q : α → Bool) (l : List α) :
    (l.filter (fun x => !(p x) && !(q x))).isEmpty = l.all (fun x => p x || q x) := by
  induction l with
  | nil => rfl
  | cons x xs ih => by_cases hx : p x <;> by_cases hq : q x <;> simp [hx, hq, ih]

theorem any_not_eq_not_all {α : Type} (p : α → Bool) (l : List α) :
    l.any (fun x => !(p x)) = !(l.all p) := by
  induction l with
  | nil => rfl
  | cons x xs ih => by_cases hx : p x <;> simp [hx, ih]

theorem any_not_two_eq_not_all {α : Type} (p q : α → Bool) (l : List α) :
    l.any (fun x => !(p x) && !(q x)) = !(l.all (fun x => p x || q x)) := by
  induction l with
  | nil => rfl
  | cons x xs ih => by_cases hx : p x <;> by_cases hq : q x <;> simp [hx, hq, ih]

theorem foldl_split_count (p : String → Bool) (l : List String) (bt : Nat × Nat) :
    l.foldl (fun q x => if p x then (q.1, q.2 + 1) else (q.1 + 1, q.2)) bt =
      (bt.1 + (l.filter (fun x => !(p x))).length, bt.2 + (l.filter p).length) := by
  induction l generalizing bt with
  | nil => simp
  | cons x xs ih =>
    by_cases hx : p x <;> simp [hx, ih] <;> omega

theorem branch_clause_shape (b : Nat) :
    toString b ++ " branch" ++ (if b = 1 then "" else "es") =
      toString b ++ (if b = 1 then " branch" else " branches") := by
  have e : (" branch" : String) ++ "es" = " branches" := rfl
  by_cases hb : b = 1 <;> simp [hb, String.append_assoc, e]

theorem tag_clause_shape (t : Nat) :
    toString t ++ " tag" ++ (if t = 1 then "" else "s") =
      toString t ++ (if t = 1 then " tag" else " tags") := by
  have e : (" tag" : String) ++ "s" = " tags" := rfl
  by_cases ht : t = 1 <;> simp [ht, String.append_assoc, e]


/-- C5: on a successful fetch run the classifier counts normal-output lines
carrying a ref-update ("->") or new-object ("[new") marker, splits them into
tag creations ("[new tag]") versus branch updates, and renders
"<b> branch(es), <t> tag(s) updated" omitting a zero count and pluralizing on
count ≠ 1; with no update markers it renders "no new commits" when neither
channel has other non-blank content (ignoring "From"-prefixed lines on the
error channel) and otherwise falls back to "fetched"; the fit variant agrees
with the rust variant. -/
theorem c5_fetch_classification (out err : String) :
    (fetchFormat ⟨true, out, err⟩ =
      (let updates := (rustLines out).filter
          (fun l => strContains l "->" || strContains l "[new")
       let b := (updates.filter (fun l => !(strContains l "[new tag]"))).length
       let t := (updates.filter (fun l => strContains l "[new tag]")).length
       if updates ≠ [] then
         sepJoin ", "
           ((if b = 0 then [] else [toString b ++ (if b = 1 then " branch" else " branches")]) ++
            (if t = 0 then [] else [toString t ++ (if t = 1 then " tag" else " tags")])) ++
           " updated"
       else if (rustLines out).all (fun l => isBlankStr l) &&
           (rustLines err).all (fun l => isBlankStr l || strStarts l "From") then
         "no new commits"
       else "fetched")) ∧
    fitFetchFormat ⟨true, out, err⟩ = fetchFormat ⟨true, out, err⟩ := by
  have hsc := filter_not_isEmpty_eq_all (fun l => isBlankStr l) (rustLines out)
  have hec := filter_not_two_isEmpty_eq_all (fun l => isBlankStr l)
    (fun l => strStarts l "From") (rustLines err)
  have hany1 := any_not_eq_not_all (fun l => isBlankStr l) (rustLines out)
  have hany2 := any_not_two_eq_not_all (fun l => isBlankStr l)
    (fun l => strStarts l "From") (rustLines err)
  have hparts : ∀ b t : Nat,
      ((if b > 0 then [toString b ++ " branch" ++ (if b = 1 then "" else "es")] else []) ++
       (if t > 0 then [toString t ++ " tag" ++ (if t = 1 then "" else "s")] else [])) =
      ((if b = 0 then [] else [toString b ++ (if b = 1 then " branch" else " branches")]) ++
       (if t = 0 then [] else [toString t ++ (if t = 1 then " tag" else " tags")])) := by
    intro b t
    rw [branch_clause_shape b, tag_clause_shape t]
    cases b <;> cases t <;> simp
  by_cases hu : (rustLines out).filter (fun l => strContains l "->" || strContains l "[new") = []
  · constructor
    · simp only [fetchFormat, hu]
      simp only [hsc, hec]
      simp
    · simp only [fitFetchFormat, fetchFormat, hu]
      simp only [hany1, hany2, hsc, hec]
      by_cases h1 : (rustLines out).all (fun l => isBlankStr l) <;>
        by_cases h2 : (rustLines err).all (fun l => isBlankStr l || strStarts l "From") <;>
          simp [h1, h2, foldl_split_count, hu]
  · obtain ⟨u, hum⟩ := List.exists_mem_of_ne_nil _ hu
    have humem := List.mem_filter.mp hum
    have hubl : isBlankStr u = false := marker_not_blank u humem.2
    have husc : u ∈ (rustLines out).filter (fun l => !(isBlankStr l)) :=
      List.mem_filter.mpr ⟨humem.1, by simp [hubl]⟩
    have hscne : ((rustLines out).filter (fun l => !(isBlankStr l))).isEmpty = false := by
      rcases hx : (rustLines out).filter (fun l => !(isBlankStr l)) with _ | ⟨y, ys⟩
      · rw [hx] at husc; cases husc
      · rfl
    have hbtne : ¬(((rustLines out).filter (fun l => strContains l "->" || strContains l "[new")).filter
          (fun l => !(strContains l "[new tag]")) = [] ∧
        ((rustLines out).filter (fun l => strContains l "->" || strContains l "[new")).filter
          (fun l => strContains l "[new tag]") = []) := by
      rintro ⟨hbn, htn⟩
      by_cases htag : strContains u "[new tag]" = true
      · have : u ∈ ((rustLines out).filter (fun l => strContains l "->" || strContains l "[new")).filter
            (fun l => strContains l "[new tag]") := List.mem_filter.mpr ⟨hum, htag⟩
        rw [htn] at this; cases this
      · have : u ∈ ((rustLines out).filter (fun l => strContains l "->" || strContains l "[new")).filter
            (fun l => !(strContains l "[new tag]")) :=
          List.mem_filter.mpr ⟨hum, by simp [htag]⟩
        rw [hbn] at this; cases this
    have hbt' : ¬(((rustLines out).filter (fun l => strContains l "->" || strContains l "[new")).filter
          (fun l => !(strContains l "[new tag]"))).length = 0 ∨
        ¬(((rustLines out).filter (fun l => strContains l "->" || strContains l "[new")).filter
          (fun l => strContains l "[new tag]")).length = 0 := by
      by_contra hcon
      push_neg at hcon
      exact hbtne ⟨List.length_eq_zero.mp hcon.1, List.length_eq_zero.mp hcon.2⟩
    have hue : ((rustLines out).filter
        (fun l => strContains l "->" || strContains l "[new")).isEmpty = false := by
      rcases hx : (rustLines out).filter (fun l => strContains l "->" || strContains l "[new")
          with _ | ⟨y, ys⟩
      · exact absurd hx hu
      · rfl
    have hallf : (rustLines out).all (fun l => isBlankStr l) = false := by
      by_contra hall
      rw [Bool.not_eq_false] at hall
      have := List.all_eq_true.mp hall u humem.1
      rw [hubl] at this
      cases this
    constructor
    · simp only [fetchFormat, hscne]
      simp only [Bool.false_and, if_neg]
      simp only [hu, hparts, hue]
      generalize (((rustLines out).filter (fun l => strContains l "->" || strContains l "[new")).filter
          (fun l => !(strContains l "[new tag]"))).length = b at hbt' ⊢
      generalize (((rustLines out).filter (fun l => strContains l "->" || strContains l "[new")).filter
          (fun l => strContains l "[new tag]")).length = t at hbt' ⊢
      rcases b with _ | b <;> rcases t with _ | t <;> simp_all
    · simp only [fitFetchFormat, fetchFormat, hany1, hany2, hscne, hallf, hue, hu,
        foldl_split_count, Nat.zero_add, hparts]
      generalize (((rustLines out).filter (fun l => strContains l "->" || strContains l "[new")).filter
          (fun l => !(strContains l "[new tag]"))).length = b at hbt' ⊢
      generalize (((rustLines out).filter (fun l => strContains l "->" || strContains l "[new")).filter
          (fun l => strContains l "[new tag]")).length = t at hbt' ⊢
      rcases b with _ | b <;> rcases t with _ | t <;> simp_all

/-! ## Collector ordering lemmas -/

theorem drainReady_inv {α : Type} (n : Nat) (f : Nat → α) (D : List Nat) :
    ∀ (k next : Nat) (slots : Nat → Option α) (emitted : List (Nat × α)),
      n - next ≤ k → next ≤ n →
      emitted = (List.range next).map (fun i => (i, f i)) →
      (∀ i, i < next → i ∈ D) →
      (∀ i, next ≤ i → slots i = if i ∈ D then some (f i) else none) →
      (drainReady n slots next emitted).2.1 ≤ n ∧
      (drainReady n slots next emitted).2.2 =
        (List.range (drainReady n slots next emitted).2.1).map (fun i => (i, f i)) ∧
      (∀ i, i < (drainReady n slots next emitted).2.1 → i ∈ D) ∧
      (∀ i, (drainReady n slots next emitted).2.1 ≤ i →
        (drainReady n slots next emitted).1 i = if i ∈ D then some (f i) else none) ∧
      ((drainReady n slots next emitted).2.1 < n →
        (drainReady n slots next emitted).2.1 ∉ D) := by
  intro k
  induction k with
  | zero =>
    intro next slots emitted hk hle h2 h3 h4
    have hnn : ¬ next < n := by omega
    rw [drainReady, dif_neg hnn]
    exact ⟨hle, h2, h3, h4, fun h => absurd h hnn⟩
  | succ k ih =>
    intro next slots emitted hk hle h2 h3 h4
    by_cases hlt : next < n
    · rcases hsl : slots next with _ | v
      · rw [drainReady, dif_pos hlt, hsl]
        have hnD : next ∉ D := by
          have hx := h4 next (Nat.le_refl next)
          rw [hsl] at hx
          by_cases hm : next ∈ D
          · rw [if_pos hm] at hx; cases hx
          · exact hm
        exact ⟨hle, h2, h3, h4, fun _ => hnD⟩
      · have hvD : next ∈ D ∧ v = f next := by
          have hx := h4 next (Nat.le_refl next)
          rw [hsl] at hx
          by_cases hm : next ∈ D
          · rw [if_pos hm] at hx
            exact ⟨hm, Option.some.inj hx⟩
          · rw [if_neg hm] at hx; cases hx
        rw [drainReady, dif_pos hlt, hsl]
        exact ih (next + 1) (Function.update slots next none)
          (emitted ++ [(next, v)]) (by omega) (by omega)
          (by rw [h2, hvD.2, List.range_succ, List.map_append]; rfl)
          (by intro i hi
              rcases Nat.lt_succ_iff_lt_or_eq.mp hi with h | h
              · exact h3 i h
              · subst h; exact hvD.1)
          (by intro i hi
              rw [Function.update_noteq (by omega)]
              exact h4 i (by omega))
    · rw [drainReady, dif_neg hlt]
      exact ⟨hle, h2, h3, h4, fun h => absurd h hlt⟩

theorem collectStep_inv {α : Type} (n : Nat) (f : Nat → α) (D : List Nat)
    (s : CollectorState α) (j : Nat) (hj : j ∉ D)
    (h1 : s.nextToPrint ≤ n)
    (h2 : s.emitted = (List.range s.nextToPrint).map (fun i => (i, f i)))
    (h3 : ∀ i, i < s.nextToPrint → i ∈ D)
    (h4 : ∀ i, s.nextToPrint ≤ i → s.slots i = if i ∈ D then some (f i) else none) :
    (collectStep n s (j, f j)).nextToPrint ≤ n ∧
    (collectStep n s (j, f j)).emitted =
      (List.range (collectStep n s (j, f j)).nextToPrint).map (fun i => (i, f i)) ∧
    (∀ i, i < (collectStep n s (j, f j)).nextToPrint → i ∈ j :: D) ∧
    (∀ i, (collectStep n s (j, f j)).nextToPrint ≤ i →
      (collectStep n s (j, f j)).slots i = if i ∈ j :: D then some (f i) else none) ∧
    ((collectStep n s (j, f j)).nextToPrint < n →
      (collectStep n s (j, f j)).nextToPrint ∉ j :: D) := by
  have hstep := drainReady_inv n f (j :: D) (n - s.nextToPrint) s.nextToPrint
    (Function.update s.slots j (some (f j))) s.emitted (Nat.le_refl _) h1 h2
    (fun i hi => List.mem_cons_of_mem j (h3 i hi))
    (by
      intro i hi
      by_cases hij : i = j
      · subst hij
        rw [Function.update_same, if_pos (List.mem_cons_self i D)]
      · rw [Function.update_noteq hij, h4 i hi]
        by_cases hm : i ∈ D
        · rw [if_pos hm, if_pos (List.mem_cons_of_mem j hm)]
        · rw [if_neg hm, if_neg (by
            intro hc
            rcases List.mem_cons.mp hc with hc | hc
            · exact hij hc
            · exact hm hc)])
  exact hstep

theorem collect_fold_inv {α : Type} (n : Nat) (f : Nat → α) :
    ∀ (arr : List (Nat × α)) (D : List Nat) (s : CollectorState α),
      (∀ p ∈ arr, p.2 = f p.1) →
      (∀ p ∈ arr, p.1 ∉ D) →
      (arr.map Prod.fst).Nodup →
      s.nextToPrint ≤ n →
      s.emitted = (List.range s.nextToPrint).map (fun i => (i, f i)) →
      (∀ i, i < s.nextToPrint → i ∈ D) →
      (∀ i, s.nextToPrint ≤ i → s.slots i = if i ∈ D then some (f i) else none) →
      (s.nextToPrint < n → s.nextToPrint ∉ D) →
      ((arr.foldl (collectStep n) s).nextToPrint ≤ n ∧
       (arr.foldl (collectStep n) s).emitted =
         (List.range (arr.foldl (collectStep n) s).nextToPrint).map (fun i => (i, f i)) ∧
       (∀ i, i < (arr.foldl (collectStep n) s).nextToPrint →
         i ∈ (arr.map Prod.fst).reverse ++ D) ∧
       (∀ i, (arr.foldl (collectStep n) s).nextToPrint ≤ i →
         (arr.foldl (collectStep n) s).slots i =
           if i ∈ (arr.map Prod.fst).reverse ++ D then some (f i) else none) ∧
       ((arr.foldl (collectStep n) s).nextToPrint < n →
         (arr.foldl (collectStep n) s).nextToPrint ∉ (arr.map Prod.fst).reverse ++ D)) := by
  intro arr
  induction arr with
  | nil =>
    intro D s hval hnotin hnd h1 h2 h3 h4 h5
    exact ⟨h1, h2, h3, h4, h5⟩
  | cons p rest ih =>
    intro D s hval hnotin hnd h1 h2 h3 h4 h5
    obtain ⟨j, v⟩ := p
    have hv : v = f j := hval (j, v) (List.mem_cons_self _ _)
    subst hv
    have hjD : j ∉ D := hnotin (j, f j) (List.mem_cons_self _ _)
    have hnd' := List.nodup_cons.mp hnd
    have hstep := collectStep_inv n f D s j hjD h1 h2 h3 h4
    have hrest := ih (j :: D) (collectStep n s (j, f j))
      (fun q hq => hval q (List.mem_cons_of_mem _ hq))
      (fun q hq hc => by
        rcases List.mem_cons.mp hc with hc | hc
        · have hmm : q.1 ∈ rest.map Prod.fst := List.mem_map_of_mem Prod.fst hq
          rw [hc] at hmm
          exact hnd'.1 hmm
        · exact hnotin q (List.mem_cons_of_mem _ hq) hc)
      hnd'.2 hstep.1 hstep.2.1 hstep.2.2.1 hstep.2.2.2.1 hstep.2.2.2.2
    have hDeq : (rest.map Prod.fst).reverse ++ (j :: D) =
        (List.map Prod.fst ((j, f j) :: rest)).reverse ++ D := by
      simp [List.reverse_cons, List.append_assoc]
    rw [← hDeq]
    exact hrest

/-- C1: for every target count and every order in which per-target results
reach the collector (each index delivered exactly once), the receive loop of
run_parallel emits exactly one line per target, exactly once each, in
strictly increasing target-index order. -/
theorem c1_live_run_ordered_emission (α : Type) (n : Nat) (f : Nat → α)
    (arr : List (Nat × α))
    (hperm : arr.Perm ((List.range n).map (fun i => (i, f i)))) :
    (runParallelCollect n arr).emitted = (List.range n).map (fun i => (i, f i)) := by
  have hrun : runParallelCollect n arr =
      arr.foldl (collectStep n) ⟨fun _ => none, 0, []⟩ := rfl
  have hidx : (arr.map Prod.fst).Perm (List.range n) := by
    have hpm := hperm.map Prod.fst
    have he : ((List.range n).map (fun i => (i, f i))).map Prod.fst = List.range n := by
      rw [List.map_map]
      exact List.map_id' (List.range n)
    rw [he] at hpm
    exact hpm
  have hval : ∀ p ∈ arr, p.2 = f p.1 := by
    intro p hp
    have hm := hperm.mem_iff.mp hp
    obtain ⟨i, _, hpe⟩ := List.mem_map.mp hm
    rw [← hpe]
  have hnodup : (arr.map Prod.fst).Nodup :=
    (List.Perm.nodup_iff hidx).mpr (List.nodup_range n)
  have hfold := collect_fold_inv n f arr [] ⟨fun _ => none, 0, []⟩ hval
    (by simp) hnodup (Nat.zero_le n) rfl (by intro i hi; simp at hi)
    (by intro i _; simp) (by intro _; simp)
  rw [hrun]
  rcases hfold with ⟨h1, h2, h3, h4, h5⟩
  by_cases hlt : (arr.foldl (collectStep n) ⟨fun _ => none, 0, []⟩).nextToPrint < n
  · exfalso
    apply h5 hlt
    have hin : (arr.foldl (collectStep n) ⟨fun _ => none, 0, []⟩).nextToPrint ∈
        arr.map Prod.fst := hidx.mem_iff.mpr (List.mem_range.mpr hlt)
    simp [hin]
  · have hn : (arr.foldl (collectStep n) ⟨fun _ => none, 0, []⟩).nextToPrint = n := by
      omega
    rw [h2, hn]

/-- C1 witness: two targets arriving out of order are emitted in order. -/
theorem c1_live_run_ordered_emission_witness :
    (runParallelCollect 2 [(1, 11), (0, 10)]).emitted = [(0, 10), (1, 11)] := by
  have h := c1_live_run_ordered_emission Nat 2 (fun i => 10 + i) [(1, 11), (0, 10)]
    (by decide)
  exact h.trans (by decide)

/-! ## Branch-header parsing lemmas -/

theorem findCharIdx_none_of_not_mem (c : Char) (l : List Char) (h : c ∉ l) :
    findCharIdx c l = none := by
  induction l with
  | nil => rfl
  | cons x xs ih =>
    have hx : x ≠ c := fun hxc => h (by simp [hxc])
    have hxs : c ∉ xs := fun hm => h (List.mem_cons_of_mem x hm)
    simp [findCharIdx, if_neg hx, ih hxs]

theorem startsWith_nodot_tail (pre : List Char) (hpre : ∀ c ∈ pre, c ≠ '.') :
    ∀ (bl t : List Char),
      startsWithChars pre (bl ++ '.' :: t) = startsWithChars pre (bl ++ ['.']) := by
  induction pre with
  | nil => intro bl t; rfl
  | cons p ps ih =>
    intro bl t
    have hp : p ≠ '.' := hpre p (List.mem_cons_self _ _)
    have hps : ∀ c ∈ ps, c ≠ '.' := fun c hc => hpre c (List.mem_cons_of_mem p hc)
    cases bl with
    | nil => simp [startsWithChars, hp]
    | cons x xs =>
      show (p = x && startsWithChars ps (xs ++ '.' :: t)) =
        (p = x && startsWithChars ps (xs ++ ['.']))
      rw [ih hps xs t]

theorem findSubIdx_dots (bl r : List Char) (hdot : ∀ c ∈ bl, c ≠ '.') :
    findSubIdx "...".data (bl ++ '.' :: '.' :: '.' :: r) = some bl.length := by
  induction bl with
  | nil =>
    have hs : startsWithChars "...".data ('.' :: '.' :: '.' :: r) = true := by
      have := startsWithChars_append_self "...".data r
      exact this
    simp [findSubIdx, hs]
  | cons c bs ih =>
    have hc : c ≠ '.' := hdot c (List.mem_cons_self _ _)
    have hbs : ∀ x ∈ bs, x ≠ '.' := fun x hx => hdot x (List.mem_cons_of_mem c hx)
    have hns : startsWithChars "...".data (c :: (bs ++ '.' :: '.' :: '.' :: r)) = false := by
      show (decide ('.' = c) && startsWithChars ['.', '.'] (bs ++ '.' :: '.' :: '.' :: r)) = false
      have hne : ¬('.' = c) := fun h => hc h.symm
      simp [hne]
    rw [List.cons_append, findSubIdx, if_neg (by simp [hns]), ih hbs]
    rfl

theorem trimRightChars_append (l r : List Char) :
    trimRightChars (l ++ r) =
      if (trimRightChars r).isEmpty then trimRightChars l else l ++ trimRightChars r := by
  unfold trimRightChars
  rw [List.reverse_append, List.dropWhile_append]
  by_cases hr : (r.reverse.dropWhile rustIsWhitespace).isEmpty
  · rw [if_pos hr]
    have : ((r.reverse.dropWhile rustIsWhitespace).reverse).isEmpty = true := by
      rcases hx : r.reverse.dropWhile rustIsWhitespace with _ | ⟨y, ys⟩
      · rfl
      · rw [hx] at hr; cases hr
    rw [if_pos this]
  · rw [if_neg hr]
    have : ((r.reverse.dropWhile rustIsWhitespace).reverse).isEmpty = false := by
      rcases hx : r.reverse.dropWhile rustIsWhitespace with _ | ⟨y, ys⟩
      · rw [hx] at hr; exact absurd rfl hr
      · simp
    rw [if_neg (by simp [this]), List.reverse_append, List.reverse_reverse]

theorem parseBranchAheadChars (bl ul Xl : List Char)
    (hdot : ∀ c ∈ bl, c ≠ '.')
    (hh1 : startsWithChars "HEAD (no branch)".data (bl ++ ['.']) = false)
    (hh2 : startsWithChars "No commits yet on ".data (bl ++ ['.']) = false)
    (hh3 : startsWithChars "Initial commit on ".data (bl ++ ['.']) = false)
    (hu1 : '[' ∉ ul) (hu2 : ']' ∉ ul)
    (hx1 : ']' ∉ Xl) (hx2 : ',' ∉ Xl) :
    parseBranchLineChars
      ("## ".data ++ (bl ++ ('.' :: '.' :: '.' ::
        (ul ++ (" [ahead ".data ++ (Xl ++ "]".data)))))) =
      some (bl, (rustParseUsize (trimRightChars Xl)).getD 0, 0) := by
  have h0 : startsWithChars "## ".data
      ("## ".data ++ (bl ++ ('.' :: '.' :: '.' ::
        (ul ++ (" [ahead ".data ++ (Xl ++ "]".data)))))) = true :=
    startsWithChars_append_self _ _
  have hdrop3 : ("## ".data ++ (bl ++ ('.' :: '.' :: '.' ::
      (ul ++ (" [ahead ".data ++ (Xl ++ "]".data)))))).drop 3 =
      bl ++ ('.' :: '.' :: '.' :: (ul ++ (" [ahead ".data ++ (Xl ++ "]".data)))) := by
    have h := List.drop_left "## ".data
      (bl ++ ('.' :: '.' :: '.' :: (ul ++ (" [ahead ".data ++ (Xl ++ "]".data)))))
    rw [show ("## ".data).length = 3 from rfl] at h
    exact h
  have hH1 : startsWithChars "HEAD (no branch)".data
      (bl ++ ('.' :: '.' :: '.' :: (ul ++ (" [ahead ".data ++ (Xl ++ "]".data))))) = false := by
    rw [startsWith_nodot_tail _ (by decide) bl _]
    exact hh1
  have hH2 : startsWithChars "No commits yet on ".data
      (bl ++ ('.' :: '.' :: '.' :: (ul ++ (" [ahead ".data ++ (Xl ++ "]".data))))) = false := by
    rw [startsWith_nodot_tail _ (by decide) bl _]
    exact hh2
  have hH3 : startsWithChars "Initial commit on ".data
      (bl ++ ('.' :: '.' :: '.' :: (ul ++ (" [ahead ".data ++ (Xl ++ "]".data))))) = false := by
    rw [startsWith_nodot_tail _ (by decide) bl _]
    exact hh3
  have hfind : findSubIdx "...".data
      (bl ++ ('.' :: '.' :: '.' :: (ul ++ (" [ahead ".data ++ (Xl ++ "]".data))))) =
      some bl.length :=
    findSubIdx_dots bl _ hdot
  have htake : (bl ++ ('.' :: '.' :: '.' ::
      (ul ++ (" [ahead ".data ++ (Xl ++ "]".data))))).take bl.length = bl :=
    List.take_left bl _
  have hdropd : (bl ++ ('.' :: '.' :: '.' ::
      (ul ++ (" [ahead ".data ++ (Xl ++ "]".data))))).drop (bl.length + 3) =
      ul ++ (" [ahead ".data ++ (Xl ++ "]".data)) := by
    rw [← List.drop_drop 3 bl.length, List.drop_left bl _]
    rfl
  have hbs : findCharIdx '[' (ul ++ (" [ahead ".data ++ (Xl ++ "]".data))) =
      some (1 + ul.length) := by
    rw [findCharIdx_append_of_not_mem '[' ul _ hu1]
    rfl
  have hbe : findCharIdx ']' (ul ++ (" [ahead ".data ++ (Xl ++ "]".data))) =
      some (0 + Xl.length + 8 + ul.length) := by
    rw [findCharIdx_append_of_not_mem ']' ul _ hu2,
      findCharIdx_append_of_not_mem ']' " [ahead ".data _ (by decide),
      findCharIdx_append_of_not_mem ']' Xl _ hx1]
    rfl
  have htake2 : (ul ++ (" [ahead ".data ++ (Xl ++ "]".data))).take
      (0 + Xl.length + 8 + ul.length) = ul ++ (" [ahead ".data ++ Xl) := by
    rw [show 0 + Xl.length + 8 + ul.length = ul.length + (8 + Xl.length) from by omega,
      List.take_append]
    rw [show (8 : Nat) + Xl.length = (" [ahead ".data).length + Xl.length from rfl,
      List.take_append, List.take_left Xl _]
  have hdrop2 : (ul ++ (" [ahead ".data ++ Xl)).drop (1 + ul.length + 1) =
      "ahead ".data ++ Xl := by
    rw [show 1 + ul.length + 1 = ul.length + 2 from by omega,
      ← List.drop_drop 2 ul.length, List.drop_left ul _]
    rfl
  have hnc : ',' ∉ "ahead ".data ++ Xl := by
    intro hmem
    rcases List.mem_append.mp hmem with hm | hm
    · exact absurd hm (by decide)
    · exact hx2 hm
  have hsplit : splitOnCharList ',' ("ahead ".data ++ Xl) = ["ahead ".data ++ Xl] :=
    splitOnCharList_of_not_mem ',' _ hnc
  have hleft : trimLeftChars ("ahead ".data ++ Xl) = "ahead ".data ++ Xl := rfl
  have htrim : trimChars ("ahead ".data ++ Xl) =
      if (trimRightChars Xl).isEmpty then "ahead".data
      else "ahead ".data ++ trimRightChars Xl := by
    unfold trimChars
    rw [hleft, trimRightChars_append]
    by_cases hxe : (trimRightChars Xl).isEmpty
    · rw [if_pos hxe, if_pos hxe]
      decide
    · rw [if_neg hxe, if_neg hxe]
  have hord : 1 + ul.length + 1 ≤ 0 + Xl.length + 8 + ul.length := by omega
  simp only [parseBranchLineChars, h0, Bool.not_true, Bool.false_eq_true, if_false,
    hdrop3, hH1, hH2, hH3, hfind, htake, hdropd, hbs, hbe, hord, htake2, hdrop2, hsplit,
    htrim, List.foldl_cons, List.foldl_nil]
  by_cases hxe : (trimRightChars Xl).isEmpty = true
  · simp only [hxe, if_true]
    have hXnil : trimRightChars Xl = [] := by
      rcases hy : trimRightChars Xl with _ | ⟨z, zs⟩
      · rfl
      · rw [hy] at hxe; cases hxe
    rw [hXnil]
    rfl
  · simp only [Bool.not_eq_true] at hxe
    simp [hxe]
    rfl

theorem parseBranchBehindChars (bl ul Xl : List Char)
    (hdot : ∀ c ∈ bl, c ≠ '.')
    (hh1 : startsWithChars "HEAD (no branch)".data (bl ++ ['.']) = false)
    (hh2 : startsWithChars "No commits yet on ".data (bl ++ ['.']) = false)
    (hh3 : startsWithChars "Initial commit on ".data (bl ++ ['.']) = false)
    (hu1 : '[' ∉ ul) (hu2 : ']' ∉ ul)
    (hx1 : ']' ∉ Xl) (hx2 : ',' ∉ Xl) :
    parseBranchLineChars
      ("## ".data ++ (bl ++ ('.' :: '.' :: '.' ::
        (ul ++ (" [behind ".data ++ (Xl ++ "]".data)))))) =
      some (bl, 0, (rustParseUsize (trimRightChars Xl)).getD 0) := by
  have h0 : startsWithChars "## ".data
      ("## ".data ++ (bl ++ ('.' :: '.' :: '.' ::
        (ul ++ (" [behind ".data ++ (Xl ++ "]".data)))))) = true :=
    startsWithChars_append_self _ _
  have hdrop3 : ("## ".data ++ (bl ++ ('.' :: '.' :: '.' ::
      (ul ++ (" [behind ".data ++ (Xl ++ "]".data)))))).drop 3 =
      bl ++ ('.' :: '.' :: '.' :: (ul ++ (" [behind ".data ++ (Xl ++ "]".data)))) := by
    have h := List.drop_left "## ".data
      (bl ++ ('.' :: '.' :: '.' :: (ul ++ (" [behind ".data ++ (Xl ++ "]".data)))))
    rw [show ("## ".data).length = 3 from rfl] at h
    exact h
  have hH1 : startsWithChars "HEAD (no branch)".data
      (bl ++ ('.' :: '.' :: '.' :: (ul ++ (" [behind ".data ++ (Xl ++ "]".data))))) = false := by
    rw [startsWith_nodot_tail _ (by decide) bl _]
    exact hh1
  have hH2 : startsWithChars "No commits yet on ".data
      (bl ++ ('.' :: '.' :: '.' :: (ul ++ (" [behind ".data ++ (Xl ++ "]".data))))) = false := by
    rw [startsWith_nodot_tail _ (by decide) bl _]
    exact hh2
  have hH3 : startsWithChars "Initial commit on ".data
      (bl ++ ('.' :: '.' :: '.' :: (ul ++ (" [behind ".data ++ (Xl ++ "]".data))))) = false := by
    rw [startsWith_nodot_tail _ (by decide) bl _]
    exact hh3
  have hfind : findSubIdx "...".data
      (bl ++ ('.' :: '.' :: '.' :: (ul ++ (" [behind ".data ++ (Xl ++ "]".data))))) =
      some bl.length :=
    findSubIdx_dots bl _ hdot
  have htake : (bl ++ ('.' :: '.' :: '.' ::
      (ul ++ (" [behind ".data ++ (Xl ++ "]".data))))).take bl.length = bl :=
    List.take_left bl _
  have hdropd : (bl ++ ('.' :: '.' :: '.' ::
      (ul ++ (" [behind ".data ++ (Xl ++ "]".data))))).drop (bl.length + 3) =
      ul ++ (" [behind ".data ++ (Xl ++ "]".data)) := by
    rw [← List.drop_drop 3 bl.length, List.drop_left bl _]
    rfl
  have hbs : findCharIdx '[' (ul ++ (" [behind ".data ++ (Xl ++ "]".data))) =
      some (1 + ul.length) := by
    rw [findCharIdx_append_of_not_mem '[' ul _ hu1]
    rfl
  have hbe : findCharIdx ']' (ul ++ (" [behind ".data ++ (Xl ++ "]".data))) =
      some (0 + Xl.length + 9 + ul.length) := by
    rw [findCharIdx_append_of_not_mem ']' ul _ hu2,
      findCharIdx_append_of_not_mem ']' " [behind ".data _ (by decide),
      findCharIdx_append_of_not_mem ']' Xl _ hx1]
    rfl
  have htake2 : (ul ++ (" [behind ".data ++ (Xl ++ "]".data))).take
      (0 + Xl.length + 9 + ul.length) = ul ++ (" [behind ".data ++ Xl) := by
    rw [show 0 + Xl.length + 9 + ul.length = ul.length + (9 + Xl.length) from by omega,
      List.take_append]
    rw [show (9 : Nat) + Xl.length = (" [behind ".data).length + Xl.length from rfl,
      List.take_append, List.take_left Xl _]
  have hdrop2 : (ul ++ (" [behind ".data ++ Xl)).drop (1 + ul.length + 1) =
      "behind ".data ++ Xl := by
    rw [show 1 + ul.length + 1 = ul.length + 2 from by omega,
      ← List.drop_drop 2 ul.length, List.drop_left ul _]
    rfl
  have hnc : ',' ∉ "behind ".data ++ Xl := by
    intro hmem
    rcases List.mem_append.mp hmem with hm | hm
    · exact absurd hm (by decide)
    · exact hx2 hm
  have hsplit : splitOnCharList ',' ("behind ".data ++ Xl) = ["behind ".data ++ Xl] :=
    splitOnCharList_of_not_mem ',' _ hnc
  have hleft : trimLeftChars ("behind ".data ++ Xl) = "behind ".data ++ Xl := rfl
  have htrim : trimChars ("behind ".data ++ Xl) =
      if (trimRightChars Xl).isEmpty then "behind".data
      else "behind ".data ++ trimRightChars Xl := by
    unfold trimChars
    rw [hleft, trimRightChars_append]
    by_cases hxe : (trimRightChars Xl).isEmpty
    · rw [if_pos hxe, if_pos hxe]
      decide
    · rw [if_neg hxe, if_neg hxe]
  have hord : 1 + ul.length + 1 ≤ 0 + Xl.length + 9 + ul.length := by omega
  simp only [parseBranchLineChars, h0, Bool.not_true, Bool.false_eq_true, if_false,
    hdrop3, hH1, hH2, hH3, hfind, htake, hdropd, hbs, hbe, hord, htake2, hdrop2, hsplit,
    htrim, List.foldl_cons, List.foldl_nil]
  by_cases hxe : (trimRightChars Xl).isEmpty = true
  · simp only [hxe, if_true]
    have hXnil : trimRightChars Xl = [] := by
      rcases hy : trimRightChars Xl with _ | ⟨z, zs⟩
      · rfl
      · rw [hy] at hxe; cases hxe
    rw [hXnil]
    rfl
  · simp only [Bool.not_eq_true] at hxe
    simp [hxe]
    rfl


theorem parseBranchNoBracketChars (bl ul : List Char)
    (hdot : ∀ c ∈ bl, c ≠ '.')
    (hh1 : startsWithChars "HEAD (no branch)".data (bl ++ ['.']) = false)
    (hh2 : startsWithChars "No commits yet on ".data (bl ++ ['.']) = false)
    (hh3 : startsWithChars "Initial commit on ".data (bl ++ ['.']) = false)
    (hu1 : '[' ∉ ul) :
    parseBranchLineChars ("## ".data ++ (bl ++ ('.' :: '.' :: '.' :: ul))) =
      some (bl, 0, 0) := by
  have h0 : startsWithChars "## ".data
      ("## ".data ++ (bl ++ ('.' :: '.' :: '.' :: ul))) = true :=
    startsWithChars_append_self _ _
  have hdrop3 : ("## ".data ++ (bl ++ ('.' :: '.' :: '.' :: ul))).drop 3 =
      bl ++ ('.' :: '.' :: '.' :: ul) := by
    have h := List.drop_left "## ".data (bl ++ ('.' :: '.' :: '.' :: ul))
    rw [show ("## ".data).length = 3 from rfl] at h
    exact h
  have hH1 : startsWithChars "HEAD (no branch)".data
      (bl ++ ('.' :: '.' :: '.' :: ul)) = false := by
    rw [startsWith_nodot_tail _ (by decide) bl _]
    exact hh1
  have hH2 : startsWithChars "No commits yet on ".data
      (bl ++ ('.' :: '.' :: '.' :: ul)) = false := by
    rw [startsWith_nodot_tail _ (by decide) bl _]
    exact hh2
  have hH3 : startsWithChars "Initial commit on ".data
      (bl ++ ('.' :: '.' :: '.' :: ul)) = false := by
    rw [startsWith_nodot_tail _ (by decide) bl _]
    exact hh3
  have hfind : findSubIdx "...".data (bl ++ ('.' :: '.' :: '.' :: ul)) =
      some bl.length :=
    findSubIdx_dots bl _ hdot
  have htake : (bl ++ ('.' :: '.' :: '.' :: ul)).take bl.length = bl :=
    List.take_left bl _
  have hdropd : (bl ++ ('.' :: '.' :: '.' :: ul)).drop (bl.length + 3) = ul := by
    rw [← List.drop_drop 3 bl.length, List.drop_left bl _]
    rfl
  have hno : findCharIdx '[' ul = none := findCharIdx_none_of_not_mem '[' ul hu1
  simp only [parseBranchLineChars, h0, Bool.not_true, Bool.false_eq_true, if_false,
    hdrop3, hH1, hH2, hH3, hfind, htake, hdropd, hno]

theorem parseBranchPanicChars (bl ul : List Char)
    (hdot : ∀ c ∈ bl, c ≠ '.')
    (hh1 : startsWithChars "HEAD (no branch)".data (bl ++ ['.']) = false)
    (hh2 : startsWithChars "No commits yet on ".data (bl ++ ['.']) = false)
    (hh3 : startsWithChars "Initial commit on ".data (bl ++ ['.']) = false)
    (hu1 : '[' ∉ ul) (hu2 : ']' ∉ ul) :
    parseBranchLineChars
      ("## ".data ++ (bl ++ ('.' :: '.' :: '.' :: (ul ++ "] [ahead 1]".data)))) =
      none := by
  have h0 : startsWithChars "## ".data
      ("## ".data ++ (bl ++ ('.' :: '.' :: '.' :: (ul ++ "] [ahead 1]".data)))) = true :=
    startsWithChars_append_self _ _
  have hdrop3 : ("## ".data ++ (bl ++ ('.' :: '.' :: '.' ::
      (ul ++ "] [ahead 1]".data)))).drop 3 =
      bl ++ ('.' :: '.' :: '.' :: (ul ++ "] [ahead 1]".data)) := by
    have h := List.drop_left "## ".data
      (bl ++ ('.' :: '.' :: '.' :: (ul ++ "] [ahead 1]".data)))
    rw [show ("## ".data).length = 3 from rfl] at h
    exact h
  have hH1 : startsWithChars "HEAD (no branch)".data
      (bl ++ ('.' :: '.' :: '.' :: (ul ++ "] [ahead 1]".data))) = false := by
    rw [startsWith_nodot_tail _ (by decide) bl _]
    exact hh1
  have hH2 : startsWithChars "No commits yet on ".data
      (bl ++ ('.' :: '.' :: '.' :: (ul ++ "] [ahead 1]".data))) = false := by
    rw [startsWith_nodot_tail _ (by decide) bl _]
    exact hh2
  have hH3 : startsWithChars "Initial commit on ".data
      (bl ++ ('.' :: '.' :: '.' :: (ul ++ "] [ahead 1]".data))) = false := by
    rw [startsWith_nodot_tail _ (by decide) bl _]
    exact hh3
  have hfind : findSubIdx "...".data
      (bl ++ ('.' :: '.' :: '.' :: (ul ++ "] [ahead 1]".data))) = some bl.length :=
    findSubIdx_dots bl _ hdot
  have htake : (bl ++ ('.' :: '.' :: '.' ::
      (ul ++ "] [ahead 1]".data))).take bl.length = bl :=
    List.take_left bl _
  have hdropd : (bl ++ ('.' :: '.' :: '.' ::
      (ul ++ "] [ahead 1]".data))).drop (bl.length + 3) =
      ul ++ "] [ahead 1]".data := by
    rw [← List.drop_drop 3 bl.length, List.drop_left bl _]
    rfl
  have hbs : findCharIdx '[' (ul ++ "] [ahead 1]".data) = some (2 + ul.length) := by
    rw [findCharIdx_append_of_not_mem '[' ul _ hu1]
    rfl
  have hbe : findCharIdx ']' (ul ++ "] [ahead 1]".data) = some (0 + ul.length) := by
    rw [findCharIdx_append_of_not_mem ']' ul _ hu2]
    rfl
  have hnord : ¬(2 + ul.length + 1 ≤ 0 + ul.length) := by omega
  simp only [parseBranchLineChars, h0, Bool.not_true, Bool.false_eq_true, if_false,
    hdrop3, hH1, hH2, hH3, hfind, htake, hdropd, hbs, hbe, hnord]

/-- C10 counterexample: the header "## main...origin/main [ahead 5 ]" carries
the clause text "5 " which usize parsing rejects, yet parse_branch_line
returns 5 (trimming happens before the parse), not 0; and on the header
"## v]1...origin/v]1 [ahead 1]" (']' is legal in git ref names) the first
']' of the tracking text precedes the first '[', the bracket slice's start
exceeds its end, and the program panics (modelled as none) — so header
parsing is neither the claimed function nor total. -/
theorem c10_counterexample :
    parse_branch_line "## main...origin/main [ahead 5 ]" = some ("main", 5, 0) ∧
    rustParseUsize "5 ".data = none ∧
    parse_branch_line "## v]1...origin/v]1 [ahead 1]" = none := by
  exact ⟨by decide, by decide, by decide⟩

/-- C10 (amended): for every header "## <branch>...<upstream> [ahead X]" or
"[behind X]" (branch without dots and not one of the special header prefixes,
upstream without brackets, X without "]" or ","), the count is the usize
parse of X after trailing-whitespace trimming, defaulting to 0 whenever that
parse fails — the same value as when the clause is absent.  Header parsing is
not total: when the first ']' of the tracking text precedes the first '[',
the bracket slice panics, modelled as none. -/
theorem c10_parse_branch_line_counts (b u X : String)
    (hdot : ∀ c ∈ b.data, c ≠ '.')
    (hh1 : startsWithChars "HEAD (no branch)".data (b.data ++ ['.']) = false)
    (hh2 : startsWithChars "No commits yet on ".data (b.data ++ ['.']) = false)
    (hh3 : startsWithChars "Initial commit on ".data (b.data ++ ['.']) = false)
    (hu1 : '[' ∉ u.data) (hu2 : ']' ∉ u.data)
    (hx1 : ']' ∉ X.data) (hx2 : ',' ∉ X.data) :
    parse_branch_line ("## " ++ b ++ "..." ++ u ++ " [ahead " ++ X ++ "]") =
      some (b, (rustParseUsize (trimRightChars X.data)).getD 0, 0) ∧
    parse_branch_line ("## " ++ b ++ "..." ++ u ++ " [behind " ++ X ++ "]") =
      some (b, 0, (rustParseUsize (trimRightChars X.data)).getD 0) ∧
    parse_branch_line ("## " ++ b ++ "..." ++ u) = some (b, 0, 0) ∧
    parse_branch_line ("## " ++ b ++ "..." ++ u ++ "] [ahead 1]") = none := by
  refine ⟨?_, ?_, ?_, ?_⟩
  · have hdata : ("## " ++ b ++ "..." ++ u ++ " [ahead " ++ X ++ "]").data =
        "## ".data ++ (b.data ++ ('.' :: '.' :: '.' ::
          (u.data ++ (" [ahead ".data ++ (X.data ++ "]".data))))) := by
      simp [String.data_append, List.append_assoc]
    unfold parse_branch_line
    rw [hdata, parseBranchAheadChars b.data u.data X.data hdot hh1 hh2 hh3 hu1 hu2 hx1 hx2]
    rfl
  · have hdata : ("## " ++ b ++ "..." ++ u ++ " [behind " ++ X ++ "]").data =
        "## ".data ++ (b.data ++ ('.' :: '.' :: '.' ::
          (u.data ++ (" [behind ".data ++ (X.data ++ "]".data))))) := by
      simp [String.data_append, List.append_assoc]
    unfold parse_branch_line
    rw [hdata, parseBranchBehindChars b.data u.data X.data hdot hh1 hh2 hh3 hu1 hu2 hx1 hx2]
    rfl
  · have hdata : ("## " ++ b ++ "..." ++ u).data =
        "## ".data ++ (b.data ++ ('.' :: '.' :: '.' :: u.data)) := by
      simp [String.data_append, List.append_assoc]
    unfold parse_branch_line
    rw [hdata, parseBranchNoBracketChars b.data u.data hdot hh1 hh2 hh3 hu1]
    rfl
  · have hdata : ("## " ++ b ++ "..." ++ u ++ "] [ahead 1]").data =
        "## ".data ++ (b.data ++ ('.' :: '.' :: '.' ::
          (u.data ++ "] [ahead 1]".data))) := by
      simp [String.data_append, List.append_assoc]
    unfold parse_branch_line
    rw [hdata, parseBranchPanicChars b.data u.data hdot hh1 hh2 hh3 hu1 hu2]
    rfl

/-- C10 witness: a non-numeric ahead clause yields 0, as when absent. -/
theorem c10_parse_branch_line_counts_witness :
    parse_branch_line "## main...origin/main [ahead xx]" = some ("main", 0, 0) := by
  have h := (c10_parse_branch_line_counts "main" "origin/main" "xx" (by decide) (by decide)
    (by decide) (by decide) (by decide) (by decide) (by decide) (by decide)).1
  rw [show ("## main...origin/main [ahead xx]" : String) =
    "## " ++ "main" ++ "..." ++ "origin/main" ++ " [ahead " ++ "xx" ++ "]" from by decide]
  rw [h]
  decide
